import Mathlib

/-!
Verification of the qbist formula-evaluation engine (shallow embedding).

The engine operates on a "formula": four parallel arrays of 36 natural
numbers (`transformSequence`, `source`, `control`, `dest`).  A liveness
analysis (`optimize`) determines which of the 36 transformation steps and
which of the 6 registers influence the final output; the per-pixel kernel
(`qbist`) executes the live steps over 6 rational 3-vector registers.
JavaScript numbers are modelled as exact rationals; the transcendental
`Math.sin` is abstracted as a function parameter `sinFn : ℚ → ℚ`.
-/

/-- 3-component vector of rationals, the value of one register. -/
abbrev V : Type := ℚ × ℚ × ℚ

/-- Array read with JavaScript-style defaulting for our nat arrays
(`l[i]`; all accesses in the claims are in range). -/
def fld (l : List ℕ) (i : ℕ) : ℕ :=
  l.getD i 0

/-- `MAX_TRANSFORMS = 36`. -/
def MAX_TRANSFORMS : ℕ := 36

/-- `NUM_REGISTERS = 6`. -/
def NUM_REGISTERS : ℕ := 6

/-- `NUM_TRANSFORM_TYPES = 9`. -/
def NUM_TRANSFORM_TYPES : ℕ := 9

/-- The `TransformType` enumeration from the source. -/
def PROJECTION : ℕ := 0
def SHIFT : ℕ := 1
def SHIFTBACK : ℕ := 2
def ROTATE : ℕ := 3
def ROTATE2 : ℕ := 4
def MULTIPLY : ℕ := 5
def SINE : ℕ := 6
def CONDITIONAL : ℕ := 7
def COMPLEMENT : ℕ := 8

/-- `FormulaInfo`: four parallel arrays of 36 integers. -/
structure FormulaInfo where
  transformSequence : List ℕ
  source : List ℕ
  control : List ℕ
  dest : List ℕ
deriving DecidableEq, Repr

/-- Well-formedness: the four arrays have length `MAX_TRANSFORMS` (36),
as produced by `createInfo`, `modifyInfo` and `importFromGimpFormat`. -/
def FormulaInfo.Wf (info : FormulaInfo) : Prop :=
  info.transformSequence.length = MAX_TRANSFORMS ∧
  info.source.length = MAX_TRANSFORMS ∧
  info.control.length = MAX_TRANSFORMS ∧
  info.dest.length = MAX_TRANSFORMS

/-- Canonical field ranges: every `kind` lies in `[0,9)` and the three
register-index fields in `[0,6)`. -/
def FormulaInfo.InRange (info : FormulaInfo) : Prop :=
  ∀ i < MAX_TRANSFORMS,
    fld info.transformSequence i < NUM_TRANSFORM_TYPES ∧
    fld info.source i < NUM_REGISTERS ∧
    fld info.control i < NUM_REGISTERS ∧
    fld info.dest i < NUM_REGISTERS

/-- The two boolean flag arrays computed by `optimize`
(`usedTransFlag : Array(36)`, `usedRegFlag : Array(6)`), modelled as
total boolean functions on indices. -/
structure Flags where
  usedTransFlag : ℕ → Bool
  usedRegFlag : ℕ → Bool

/-- `usedTransFlag[q] = true` (array store). -/
def setTrans (q : ℕ) (st : Flags) : Flags :=
  { st with usedTransFlag := Function.update st.usedTransFlag q true }

/-- `usedRegFlag[n] = true` (array store). -/
def setReg (n : ℕ) (st : Flags) : Flags :=
  { st with usedRegFlag := Function.update st.usedRegFlag n true }

/-- Both flag arrays initialised to `false` (`new Array(..).fill(false)`). -/
def initFlags : Flags :=
  ⟨fun _ => false, fun _ => false⟩

/-- The backward scan inside `checkLastModified`: starting from `p`
exclusive, find the nearest earlier index whose `dest` equals `n`
(`p--; while (p >= 0 && info.dest[p] !== n) p--`).  Returns `none` when
the scan runs past the start. -/
def lastWriter (d : List ℕ) : ℕ → ℕ → Option ℕ
  | 0, _ => none
  | p + 1, n => if fld d p = n then some p else lastWriter d p n

theorem lastWriter_lt {d : List ℕ} {p n q : ℕ}
    (h : lastWriter d p n = some q) : q < p := by
  induction p with
  | zero => simp [lastWriter] at h
  | succ p ih =>
    rw [lastWriter] at h
    by_cases hd : fld d p = n
    · simp [hd] at h
      omega
    · simp [hd] at h
      exact Nat.lt_succ_of_lt (ih h)

theorem lastWriter_dest {d : List ℕ} {p n q : ℕ}
    (h : lastWriter d p n = some q) : fld d q = n := by
  induction p with
  | zero => simp [lastWriter] at h
  | succ p ih =>
    rw [lastWriter] at h
    by_cases hd : fld d p = n
    · simp [hd] at h
      subst h; exact hd
    · simp [hd] at h
      exact ih h

/-- No index strictly between the found writer and the scan start writes
register `n`. -/
theorem lastWriter_maximal {d : List ℕ} {p n q : ℕ}
    (h : lastWriter d p n = some q) :
    ∀ r, q < r → r < p → fld d r ≠ n := by
  induction p with
  | zero => simp [lastWriter] at h
  | succ p ih =>
    rw [lastWriter] at h
    by_cases hd : fld d p = n
    · simp [hd] at h
      subst h
      intro r h1 h2
      omega
    · simp [hd] at h
      intro r h1 h2
      rcases Nat.lt_or_ge r p with hr | hr
      · exact ih h r h1 hr
      · have : r = p := by omega
        subst this; exact hd

/-- When the scan runs past the start, no index below `p` writes `n`. -/
theorem lastWriter_none {d : List ℕ} {p n : ℕ}
    (h : lastWriter d p n = none) :
    ∀ r < p, fld d r ≠ n := by
  induction p with
  | zero => intro r hr; omega
  | succ p ih =>
    rw [lastWriter] at h
    by_cases hd : fld d p = n
    · simp [hd] at h
    · simp [hd] at h
      intro r hr
      rcases Nat.lt_or_ge r p with h1 | h1
      · exact ih h r h1
      · have : r = p := by omega
        subst this; exact hd

/-- The recursive liveness walk `checkLastModified(p, n)` of `optimize`,
acting on the flag state.  `d`, `s`, `c` are the (normalised) `dest`,
`source` and `control` arrays of the formula the closure captures. -/
def checkLastModified (d s c : List ℕ) (p n : ℕ) (st : Flags) : Flags :=
  match h : lastWriter d p n with
  | none => setReg n st
  | some q =>
    have : q < p := lastWriter_lt h
    checkLastModified d s c q (fld c q)
      (checkLastModified d s c q (fld s q) (setTrans q st))
termination_by p

theorem check_eq_none (d s c : List ℕ) (p n : ℕ) (st : Flags)
    (h : lastWriter d p n = none) :
    checkLastModified d s c p n st = setReg n st := by
  rw [checkLastModified]
  split
  · rfl
  · rename_i q hq
    rw [h] at hq
    exact absurd hq (by simp)

theorem check_eq_some (d s c : List ℕ) (p n q : ℕ) (st : Flags)
    (h : lastWriter d p n = some q) :
    checkLastModified d s c p n st =
      checkLastModified d s c q (fld c q)
        (checkLastModified d s c q (fld s q) (setTrans q st)) := by
  rw [checkLastModified]
  split
  · rename_i hq
    rw [h] at hq
    exact absurd hq (by simp)
  · rename_i q2 hq
    rw [h] at hq
    cases hq
    rfl

/-- The normalisation loop at the top of `optimize`: for each step whose
kind is ROTATE, ROTATE2 or COMPLEMENT, `info.control[i] = info.dest[i]`. -/
def normalizeControl (info : FormulaInfo) : FormulaInfo :=
  { info with
    control :=
      (List.range MAX_TRANSFORMS).foldl
        (fun ctl i =>
          if fld info.transformSequence i = ROTATE ∨
             fld info.transformSequence i = ROTATE2 ∨
             fld info.transformSequence i = COMPLEMENT then
            ctl.set i (fld info.dest i)
          else ctl)
        info.control }

/-- `optimize`: normalise `control` in place, then run the backward
liveness walk from `checkLastModified(36, 0)`.  Returns the mutated
formula together with `{usedTransFlag, usedRegFlag}`. -/
def optimize (info : FormulaInfo) : FormulaInfo × Flags :=
  let nInfo := normalizeControl info
  (nInfo,
    checkLastModified nInfo.dest nInfo.source nInfo.control
      MAX_TRANSFORMS 0 initFlags)

/-- `v >= 1.0 ? v - 1.0 : v` — the SHIFT wrap applied to each component. -/
def wrapDown (v : ℚ) : ℚ :=
  if v ≥ 1 then v - 1 else v

/-- `v <= 0.0 ? v + 1.0 : v` — the SHIFTBACK wrap applied to each component. -/
def wrapUp (v : ℚ) : ℚ :=
  if v ≤ 0 then v + 1 else v

/-- The `switch (info.transformSequence[i])` body of `qbist`: the value
written to `reg[dest]` as a function of the step kind `k` and the current
`reg[source]` (`s`) and `reg[control]` (`c`).  A kind outside the nine
cases matches no `case` label, so nothing is written (`none`). -/
def stepOut (sinFn : ℚ → ℚ) (k : ℕ) (s c : V) : Option V :=
  if k = PROJECTION then
    let scalarProd := s.1 * c.1 + s.2.1 * c.2.1 + s.2.2 * c.2.2
    some (scalarProd * s.1, scalarProd * s.2.1, scalarProd * s.2.2)
  else if k = SHIFT then
    some (wrapDown (s.1 + c.1), wrapDown (s.2.1 + c.2.1),
      wrapDown (s.2.2 + c.2.2))
  else if k = SHIFTBACK then
    some (wrapUp (s.1 - c.1), wrapUp (s.2.1 - c.2.1), wrapUp (s.2.2 - c.2.2))
  else if k = ROTATE then
    some (s.2.1, s.2.2, s.1)
  else if k = ROTATE2 then
    some (s.2.2, s.1, s.2.1)
  else if k = MULTIPLY then
    some (s.1 * c.1, s.2.1 * c.2.1, s.2.2 * c.2.2)
  else if k = SINE then
    some (0.5 + 0.5 * sinFn (20 * s.1 * c.1), 0.5 + 0.5 * sinFn (20 * s.2.1 * c.2.1),
      0.5 + 0.5 * sinFn (20 * s.2.2 * c.2.2))
  else if k = CONDITIONAL then
    some (if c.1 + c.2.1 + c.2.2 > 0.5 then s else c)
  else if k = COMPLEMENT then
    some (1 - s.1, 1 - s.2.1, 1 - s.2.2)
  else
    none

/-- One iteration of the transformation loop of `qbist`: step `i` is
skipped unless `usedTransFlag[i]`, otherwise `reg[dest]` is overwritten
with the step's output computed from the pre-update register file. -/
def execLive (info : FormulaInfo) (sinFn : ℚ → ℚ) (fT : ℕ → Bool)
    (r : ℕ → V) (i : ℕ) : ℕ → V :=
  if fT i then
    match stepOut sinFn (fld info.transformSequence i)
        (r (fld info.source i)) (r (fld info.control i)) with
    | some v => Function.update r (fld info.dest i) v
    | none => r
  else r

/-- The register file after running the transformation loop over step
indices `0, …, p-1` from the seed file `σ`. -/
def runUpTo (info : FormulaInfo) (sinFn : ℚ → ℚ) (fT : ℕ → Bool)
    (σ : ℕ → V) (p : ℕ) : ℕ → V :=
  (List.range p).foldl (execLive info sinFn fT) σ

/-- One kernel evaluation (the body of `qbist`'s subsample loops) from an
arbitrary register seed file `σ`: run all 36 steps and read `reg[0]`. -/
def evalOneGen (info : FormulaInfo) (sinFn : ℚ → ℚ) (fT : ℕ → Bool)
    (σ : ℕ → V) : V :=
  runUpTo info sinFn fT σ MAX_TRANSFORMS 0

/-- The register initialisation of `qbist`: register `i` is seeded with
`[(x*os+xx)/(w*os), (y*os+yy)/(h*os), i/NUM_REGISTERS]` when
`usedRegFlag[i]`, and `[0,0,0]` otherwise. -/
def stdSeed (fR : ℕ → Bool) (u v : ℚ) : ℕ → V := fun i =>
  if fR i then (u, v, (i : ℚ) / (NUM_REGISTERS : ℚ)) else (0, 0, 0)

/-- The accumulation part of `qbist`, generalised over the per-subsample
register seed `sg` (register index, u, v): the two nested `oversampling`
loops summing the kernel value of each subsample into `accum`. -/
def qbistAccumGen (info : FormulaInfo) (sinFn : ℚ → ℚ) (fT : ℕ → Bool)
    (sg : ℕ → ℚ → ℚ → V) (x y width height : ℚ) (oversampling : ℕ) : V :=
  (List.range oversampling).foldl
    (fun (acc : V) (yy : ℕ) =>
      (List.range oversampling).foldl
        (fun (acc2 : V) (xx : ℕ) =>
          acc2 + evalOneGen info sinFn fT (fun i =>
            sg i
              ((x * (oversampling : ℚ) + (xx : ℚ)) /
                (width * (oversampling : ℚ)))
              ((y * (oversampling : ℚ) + (yy : ℚ)) /
                (height * (oversampling : ℚ)))))
        acc)
    (0, 0, 0)

/-- `qbist` generalised over the register seeding rule: accumulate over
the `oversampling × oversampling` subsample grid, then divide each
component by `samples = oversampling * oversampling`. -/
def qbistGen (info : FormulaInfo) (sinFn : ℚ → ℚ) (fT : ℕ → Bool)
    (sg : ℕ → ℚ → ℚ → V) (x y width height : ℚ) (oversampling : ℕ) : V :=
  let accum := qbistAccumGen info sinFn fT sg x y width height oversampling
  let samples : ℚ := ((oversampling * oversampling : ℕ) : ℚ)
  (accum.1 / samples, accum.2.1 / samples, accum.2.2 / samples)

/-- `qbist(info, x, y, width, height, oversampling, usedTransFlag,
usedRegFlag)`: the per-pixel kernel, with the source's register
initialisation rule. -/
def qbist (info : FormulaInfo) (x y width height : ℚ) (oversampling : ℕ)
    (fT fR : ℕ → Bool) (sinFn : ℚ → ℚ) : V :=
  qbistGen info sinFn fT
    (fun i u v =>
      if fR i then (u, v, (i : ℚ) / (NUM_REGISTERS : ℚ)) else (0, 0, 0))
    x y width height oversampling

/-- The per-pixel output conversion shared by `drawQbist` and the render
worker: `Math.floor(color[c] * 255)` for the three channels and a fully
opaque alpha byte. -/
def channelize (color : V) : ℤ × ℤ × ℤ × ℤ :=
  (⌊color.1 * 255⌋, ⌊color.2.1 * 255⌋, ⌊color.2.2 * 255⌋, 255)

/-- The per-pixel computation of `drawQbist(canvas, info, oversampling = 0)`:
run `optimize` on the formula, evaluate `qbist` at the pixel, and convert
to 8-bit RGBA.  The `oversampling` parameter defaults to `0` exactly as in
the source. -/
def drawQbistPixel (sinFn : ℚ → ℚ) (info : FormulaInfo)
    (x y width height : ℚ) (oversampling : ℕ := 0) : ℤ × ℤ × ℤ × ℤ :=
  let opt := optimize info
  channelize
    (qbist opt.1 x y width height oversampling
      opt.2.usedTransFlag opt.2.usedRegFlag sinFn)

/-- `view.setUint16(o, v, false)`: the two bytes of `v`'s low 16 bits,
big-endian. -/
def be16 (v : ℕ) : List ℕ :=
  [v % 65536 / 256, v % 256]

/-- `view.getUint16(o, false)`: big-endian 16-bit read at byte offset `o`. -/
def getU16 (buf : List ℕ) (o : ℕ) : ℕ :=
  256 * fld buf o + fld buf (o + 1)

/-- One 72-byte block of the GIMP buffer: `n` consecutive big-endian
16-bit values (`view.setUint16(base + i*2, g(i), false)` for `i < n`). -/
def blk (g : ℕ → ℕ) (n : ℕ) : List ℕ :=
  ((List.range n).map fun i => be16 (g i)).flatten

/-- `exportToGimpFormat`: a 288-byte buffer of four consecutive 72-byte
blocks of 36 big-endian 16-bit integers — `transformSequence`, `source`,
`control`, `dest`. -/
def exportToGimpFormat (info : FormulaInfo) : List ℕ :=
  blk (fld info.transformSequence) MAX_TRANSFORMS ++
  (blk (fld info.source) MAX_TRANSFORMS ++
  (blk (fld info.control) MAX_TRANSFORMS ++
  blk (fld info.dest) MAX_TRANSFORMS))

/-- `importFromGimpFormat`: reject any buffer whose byte length is not
`MAX_TRANSFORMS * 2 * 4 = 288` with a `RangeError`; otherwise decode each
big-endian 16-bit integer, reducing kinds modulo `NUM_TRANSFORM_TYPES`
and register indices modulo `NUM_REGISTERS`. -/
def importFromGimpFormat (buf : List ℕ) : Except String FormulaInfo :=
  if buf.length ≠ MAX_TRANSFORMS * 2 * 4 then
    Except.error "RangeError: Expected 288 byte GIMP Qbist buffer"
  else
    Except.ok
      { transformSequence := (List.range MAX_TRANSFORMS).map fun i =>
          getU16 buf (2 * i) % NUM_TRANSFORM_TYPES
        source := (List.range MAX_TRANSFORMS).map fun i =>
          getU16 buf (72 + 2 * i) % NUM_REGISTERS
        control := (List.range MAX_TRANSFORMS).map fun i =>
          getU16 buf (144 + 2 * i) % NUM_REGISTERS
        dest := (List.range MAX_TRANSFORMS).map fun i =>
          getU16 buf (216 + 2 * i) % NUM_REGISTERS }

/-- Nodes `(p', n')` visited by the liveness walk when started at
`checkLastModified(p0, n0)`: the walk recurses from a visited `(p, n)`
into `(q, source[q])` and `(q, control[q])` where `q` is the last writer
of register `n` before position `p`. -/
inductive ReachFrom (d s c : List ℕ) (p0 n0 : ℕ) : ℕ → ℕ → Prop
  | refl : ReachFrom d s c p0 n0 p0 n0
  | src {p n q} : ReachFrom d s c p0 n0 p n → lastWriter d p n = some q →
      ReachFrom d s c p0 n0 q (fld s q)
  | ctl {p n q} : ReachFrom d s c p0 n0 p n → lastWriter d p n = some q →
      ReachFrom d s c p0 n0 q (fld c q)

/-- `(p, n)` is demanded: the walk rooted at `checkLastModified(36, 0)`
reads the value of register `n` at position `p`.  This is the declarative
"contributes, directly or transitively, to the final register-0 value"
relation. -/
def Demanded (d s c : List ℕ) (p n : ℕ) : Prop :=
  ReachFrom d s c MAX_TRANSFORMS 0 p n

/-- Pointwise implication between flag states. -/
def FlagsLe (a b : Flags) : Prop :=
  (∀ j, a.usedTransFlag j = true → b.usedTransFlag j = true) ∧
  (∀ j, a.usedRegFlag j = true → b.usedRegFlag j = true)

theorem flagsLe_refl (a : Flags) : FlagsLe a a :=
  ⟨fun _ h => h, fun _ h => h⟩

theorem flagsLe_trans {a b c : Flags} (h1 : FlagsLe a b) (h2 : FlagsLe b c) :
    FlagsLe a c :=
  ⟨fun j h => h2.1 j (h1.1 j h), fun j h => h2.2 j (h1.2 j h)⟩

theorem flagsLe_setTrans (q : ℕ) (a : Flags) : FlagsLe a (setTrans q a) := by
  refine ⟨fun j hj => ?_, fun j hj => hj⟩
  simp only [setTrans, Function.update_apply]
  split <;> simp [hj]

theorem flagsLe_setReg (n : ℕ) (a : Flags) : FlagsLe a (setReg n a) := by
  refine ⟨fun j hj => hj, fun j hj => ?_⟩
  simp only [setReg, Function.update_apply]
  split <;> simp [hj]

theorem setTrans_self (q : ℕ) (a : Flags) :
    (setTrans q a).usedTransFlag q = true := by
  simp [setTrans]

theorem setReg_self (n : ℕ) (a : Flags) :
    (setReg n a).usedRegFlag n = true := by
  simp [setReg]

/-- The walk only ever adds flags. -/
theorem check_grow (d s c : List ℕ) :
    ∀ p n st, FlagsLe st (checkLastModified d s c p n st) := by
  intro p
  induction p using Nat.strong_induction_on with
  | _ p ih =>
    intro n st
    cases h : lastWriter d p n with
    | none =>
      rw [check_eq_none d s c p n st h]
      exact flagsLe_setReg n st
    | some q =>
      rw [check_eq_some d s c p n q st h]
      have hq := lastWriter_lt h
      exact flagsLe_trans (flagsLe_setTrans q st)
        (flagsLe_trans (ih q hq _ _) (ih q hq _ _))

/-- Visiting `(p, n)` discharges its own obligation: a found writer is
flagged live, a missed writer flags the register as seeded. -/
theorem check_obligation_some (d s c : List ℕ) (p n q : ℕ) (st : Flags)
    (h : lastWriter d p n = some q) :
    (checkLastModified d s c p n st).usedTransFlag q = true := by
  rw [check_eq_some d s c p n q st h]
  exact ((check_grow d s c _ _ _).1 q
    ((check_grow d s c _ _ _).1 q (setTrans_self q st)))

theorem check_obligation_none (d s c : List ℕ) (p n : ℕ) (st : Flags)
    (h : lastWriter d p n = none) :
    (checkLastModified d s c p n st).usedRegFlag n = true := by
  rw [check_eq_none d s c p n st h]
  exact setReg_self n st

/-- Reachability composes. -/
theorem reach_trans {d s c : List ℕ} {p0 n0 p1 n1 p2 n2 : ℕ}
    (h1 : ReachFrom d s c p0 n0 p1 n1) (h2 : ReachFrom d s c p1 n1 p2 n2) :
    ReachFrom d s c p0 n0 p2 n2 := by
  induction h2 with
  | refl => exact h1
  | src hr hw ih => exact ReachFrom.src ih hw
  | ctl hr hw ih => exact ReachFrom.ctl ih hw

/-- Positions never grow along the walk. -/
theorem reach_le {d s c : List ℕ} {p0 n0 p n : ℕ}
    (h : ReachFrom d s c p0 n0 p n) : p ≤ p0 := by
  induction h with
  | refl => exact Nat.le_refl _
  | src hr hw ih => exact Nat.le_of_lt (Nat.lt_of_lt_of_le (lastWriter_lt hw) ih)
  | ctl hr hw ih => exact Nat.le_of_lt (Nat.lt_of_lt_of_le (lastWriter_lt hw) ih)

/-- Every node reachable from `(p, n)` is visited as a sub-walk whose
result is contained in the walk's overall result. -/
theorem reach_flag (d s c : List ℕ) (p n : ℕ) (st : Flags) :
    ∀ p1 n1, ReachFrom d s c p n p1 n1 →
      ∃ st2, FlagsLe (checkLastModified d s c p1 n1 st2)
        (checkLastModified d s c p n st) := by
  intro p1 n1 h
  induction h with
  | refl => exact ⟨st, flagsLe_refl _⟩
  | @src p2 n2 q hr hw ih =>
    rcases ih with ⟨st2, ih⟩
    rw [check_eq_some d s c p2 n2 q st2 hw] at ih
    exact ⟨setTrans q st2, flagsLe_trans (check_grow d s c _ _ _) ih⟩
  | @ctl p2 n2 q hr hw ih =>
    rcases ih with ⟨st2, ih⟩
    rw [check_eq_some d s c p2 n2 q st2 hw] at ih
    exact ⟨checkLastModified d s c q (fld s q) (setTrans q st2), ih⟩

/-- The flag state produced by the walk of `optimize` (after
normalisation): `checkLastModified(MAX_TRANSFORMS, 0)` on cleared flags. -/
def optimizeFlags (info : FormulaInfo) : Flags :=
  checkLastModified info.dest info.source info.control MAX_TRANSFORMS 0 initFlags

/-- A demanded node whose backward scan finds writer `q` leaves
`usedTransFlag[q]` set. -/
theorem demanded_flag_some {d s c : List ℕ} {p n q : ℕ}
    (hD : Demanded d s c p n) (h : lastWriter d p n = some q) :
    (checkLastModified d s c MAX_TRANSFORMS 0 initFlags).usedTransFlag q = true := by
  rcases reach_flag d s c MAX_TRANSFORMS 0 initFlags p n hD with ⟨st2, hle⟩
  exact hle.1 q (check_obligation_some d s c p n q st2 h)

/-- A demanded node whose backward scan finds no writer leaves
`usedRegFlag[n]` set. -/
theorem demanded_flag_none {d s c : List ℕ} {p n : ℕ}
    (hD : Demanded d s c p n) (h : lastWriter d p n = none) :
    (checkLastModified d s c MAX_TRANSFORMS 0 initFlags).usedRegFlag n = true := by
  rcases reach_flag d s c MAX_TRANSFORMS 0 initFlags p n hD with ⟨st2, hle⟩
  exact hle.2 n (check_obligation_none d s c p n st2 h)

/-- Conversely, every step flag set by the walk stems from a reachable
node whose scan found that step. -/
theorem check_trans_reach (d s c : List ℕ) :
    ∀ p n st j, (checkLastModified d s c p n st).usedTransFlag j = true →
      st.usedTransFlag j = true ∨
      ∃ p1 n1, ReachFrom d s c p n p1 n1 ∧ lastWriter d p1 n1 = some j := by
  intro p
  induction p using Nat.strong_induction_on with
  | _ p ih =>
    intro n st j hj
    cases h : lastWriter d p n with
    | none =>
      rw [check_eq_none d s c p n st h] at hj
      exact Or.inl hj
    | some q =>
      have hq := lastWriter_lt h
      rw [check_eq_some d s c p n q st h] at hj
      rcases ih q hq (fld c q) _ j hj with hj2 | ⟨p1, n1, hr, hw⟩
      · rcases ih q hq (fld s q) _ j hj2 with hj3 | ⟨p1, n1, hr, hw⟩
        · by_cases hjq : j = q
          · subst hjq
            exact Or.inr ⟨p, n, ReachFrom.refl, h⟩
          · left
            simpa [setTrans, Function.update_apply, hjq] using hj3
        · exact Or.inr ⟨p1, n1, reach_trans (ReachFrom.src ReachFrom.refl h) hr, hw⟩
      · exact Or.inr ⟨p1, n1, reach_trans (ReachFrom.ctl ReachFrom.refl h) hr, hw⟩

/-- Every register flag set by the walk stems from a reachable node whose
scan ran past the start. -/
theorem check_reg_reach (d s c : List ℕ) :
    ∀ p n st j, (checkLastModified d s c p n st).usedRegFlag j = true →
      st.usedRegFlag j = true ∨
      ∃ p1, ReachFrom d s c p n p1 j ∧ lastWriter d p1 j = none := by
  intro p
  induction p using Nat.strong_induction_on with
  | _ p ih =>
    intro n st j hj
    cases h : lastWriter d p n with
    | none =>
      rw [check_eq_none d s c p n st h] at hj
      by_cases hjn : j = n
      · subst hjn
        exact Or.inr ⟨p, ReachFrom.refl, h⟩
      · left
        simpa [setReg, Function.update_apply, hjn] using hj
    | some q =>
      have hq := lastWriter_lt h
      rw [check_eq_some d s c p n q st h] at hj
      rcases ih q hq (fld c q) _ j hj with hj2 | ⟨p1, hr, hw⟩
      · rcases ih q hq (fld s q) _ j hj2 with hj3 | ⟨p1, hr, hw⟩
        · exact Or.inl hj3
        · exact Or.inr ⟨p1, reach_trans (ReachFrom.src ReachFrom.refl h) hr, hw⟩
      · exact Or.inr ⟨p1, reach_trans (ReachFrom.ctl ReachFrom.refl h) hr, hw⟩

/-- `usedTransFlag[j]` is set by `optimize`'s walk exactly when some
demanded node's backward scan finds step `j` as the last writer. -/
theorem optimizeFlags_trans_iff (info : FormulaInfo) (j : ℕ) :
    (optimizeFlags info).usedTransFlag j = true ↔
      ∃ p n, Demanded info.dest info.source info.control p n ∧
        lastWriter info.dest p n = some j := by
  constructor
  · intro hj
    rcases check_trans_reach info.dest info.source info.control
        MAX_TRANSFORMS 0 initFlags j hj with h | ⟨p1, n1, hr, hw⟩
    · simp [initFlags] at h
    · exact ⟨p1, n1, hr, hw⟩
  · rintro ⟨p, n, hD, hw⟩
    exact demanded_flag_some hD hw

/-- `usedRegFlag[m]` is set by `optimize`'s walk exactly when some
demanded node for register `m` scans past the start. -/
theorem optimizeFlags_reg_iff (info : FormulaInfo) (m : ℕ) :
    (optimizeFlags info).usedRegFlag m = true ↔
      ∃ p, Demanded info.dest info.source info.control p m ∧
        lastWriter info.dest p m = none := by
  constructor
  · intro hm
    rcases check_reg_reach info.dest info.source info.control
        MAX_TRANSFORMS 0 initFlags m hm with h | ⟨p1, hr, hw⟩
    · simp [initFlags] at h
    · exact ⟨p1, hr, hw⟩
  · rintro ⟨p, hD, hw⟩
    exact demanded_flag_none hD hw

theorem runUpTo_zero (info : FormulaInfo) (sinFn : ℚ → ℚ) (fT : ℕ → Bool)
    (σ : ℕ → V) : runUpTo info sinFn fT σ 0 = σ := rfl

theorem runUpTo_succ (info : FormulaInfo) (sinFn : ℚ → ℚ) (fT : ℕ → Bool)
    (σ : ℕ → V) (p : ℕ) :
    runUpTo info sinFn fT σ (p + 1) =
      execLive info sinFn fT (runUpTo info sinFn fT σ p) p := by
  simp [runUpTo, List.range_succ]

/-- A step whose `dest` is not `n` leaves register `n` unchanged (whether
it runs or is skipped). -/
theorem execLive_ne (info : FormulaInfo) (sinFn : ℚ → ℚ) (fT : ℕ → Bool)
    (r : ℕ → V) (i n : ℕ) (hne : fld info.dest i ≠ n) :
    execLive info sinFn fT r i n = r n := by
  unfold execLive
  split
  · cases hso : stepOut sinFn (fld info.transformSequence i)
        (r (fld info.source i)) (r (fld info.control i)) with
    | none => rfl
    | some v => exact Function.update_noteq (fun h => hne h.symm) _ _
  · rfl

/-- If no step in `[a, b)` writes register `n`, its value after `b` steps
equals its value after `a` steps. -/
theorem runUpTo_preserve (info : FormulaInfo) (sinFn : ℚ → ℚ) (fT : ℕ → Bool)
    (σ : ℕ → V) (n : ℕ) :
    ∀ a b, a ≤ b → (∀ r, a ≤ r → r < b → fld info.dest r ≠ n) →
      runUpTo info sinFn fT σ b n = runUpTo info sinFn fT σ a n := by
  intro a b
  induction b with
  | zero =>
    intro hab _
    have : a = 0 := Nat.le_zero.mp hab
    rw [this]
  | succ b ih =>
    intro hab hno
    rcases Nat.lt_or_ge a (b + 1) with h1 | h1
    · have hab2 : a ≤ b := Nat.lt_succ_iff.mp h1
      rw [runUpTo_succ, execLive_ne info sinFn fT _ b n
        (hno b hab2 (Nat.lt_succ_self b))]
      exact ih hab2 (fun r hr1 hr2 => hno r hr1 (Nat.lt_succ_of_lt hr2))
    · have : a = b + 1 := Nat.le_antisymm hab h1
      rw [this]

/-- Every in-range kind matches one of the nine `case` labels. -/
theorem stepOut_isSome (sinFn : ℚ → ℚ) (k : ℕ) (s c : V)
    (hk : k < NUM_TRANSFORM_TYPES) : ∃ v, stepOut sinFn k s c = some v := by
  have h9 : k < 9 := hk
  interval_cases k <;> exact ⟨_, rfl⟩

/-- Core liveness invariance: two runs from seed files that agree on every
register flagged by the walk agree on the value of every demanded
`(position, register)` node. -/
theorem demanded_run_eq (info : FormulaInfo) (sinFn : ℚ → ℚ)
    (hK : ∀ i < MAX_TRANSFORMS,
      fld info.transformSequence i < NUM_TRANSFORM_TYPES)
    (σ σ' : ℕ → V)
    (hσ : ∀ m, (optimizeFlags info).usedRegFlag m = true → σ m = σ' m) :
    ∀ p n, Demanded info.dest info.source info.control p n →
      runUpTo info sinFn (optimizeFlags info).usedTransFlag σ p n =
        runUpTo info sinFn (optimizeFlags info).usedTransFlag σ' p n := by
  intro p
  induction p using Nat.strong_induction_on with
  | _ p ih =>
    intro n hD
    have hp36 : p ≤ MAX_TRANSFORMS := reach_le hD
    cases h : lastWriter info.dest p n with
    | none =>
      have hno := lastWriter_none h
      rw [runUpTo_preserve info sinFn _ σ n 0 p (Nat.zero_le p)
        (fun r _ hr2 => hno r hr2)]
      rw [runUpTo_preserve info sinFn _ σ' n 0 p (Nat.zero_le p)
        (fun r _ hr2 => hno r hr2)]
      exact hσ n (demanded_flag_none hD h)
    | some q =>
      have hq := lastWriter_lt h
      have hd := lastWriter_dest h
      have hmax := lastWriter_maximal h
      have hfl : (optimizeFlags info).usedTransFlag q = true :=
        demanded_flag_some hD h
      have hstep : ∀ τ : ℕ → V,
          runUpTo info sinFn (optimizeFlags info).usedTransFlag τ p n =
            runUpTo info sinFn (optimizeFlags info).usedTransFlag τ (q + 1) n := by
        intro τ
        exact runUpTo_preserve info sinFn _ τ n (q + 1) p hq
          (fun r hr1 hr2 => hmax r hr1 hr2)
      rw [hstep σ, hstep σ', runUpTo_succ, runUpTo_succ]
      have hs : runUpTo info sinFn (optimizeFlags info).usedTransFlag σ q
            (fld info.source q) =
          runUpTo info sinFn (optimizeFlags info).usedTransFlag σ' q
            (fld info.source q) :=
        ih q hq _ (ReachFrom.src hD h)
      have hc : runUpTo info sinFn (optimizeFlags info).usedTransFlag σ q
            (fld info.control q) =
          runUpTo info sinFn (optimizeFlags info).usedTransFlag σ' q
            (fld info.control q) :=
        ih q hq _ (ReachFrom.ctl hD h)
      obtain ⟨v, hv⟩ := stepOut_isSome sinFn (fld info.transformSequence q)
        (runUpTo info sinFn (optimizeFlags info).usedTransFlag σ q
          (fld info.source q))
        (runUpTo info sinFn (optimizeFlags info).usedTransFlag σ q
          (fld info.control q))
        (hK q (Nat.lt_of_lt_of_le hq hp36))
      have hv2 : stepOut sinFn (fld info.transformSequence q)
          (runUpTo info sinFn (optimizeFlags info).usedTransFlag σ' q
            (fld info.source q))
          (runUpTo info sinFn (optimizeFlags info).usedTransFlag σ' q
            (fld info.control q)) = some v := by
        rw [← hs, ← hc]
        exact hv
      unfold execLive
      rw [hfl]
      simp only [if_true]
      rw [hv, hv2, hd]
      simp [Function.update_same]

/-- Runs of two formulas that agree on every field of every live step are
identical: `qbist` never reads a field of a skipped step. -/
theorem run_agree (info info2 : FormulaInfo) (sinFn : ℚ → ℚ) (fT : ℕ → Bool)
    (hag : ∀ j, fT j = true →
      fld info2.transformSequence j = fld info.transformSequence j ∧
      fld info2.source j = fld info.source j ∧
      fld info2.control j = fld info.control j ∧
      fld info2.dest j = fld info.dest j) :
    ∀ p σ, runUpTo info2 sinFn fT σ p = runUpTo info sinFn fT σ p := by
  intro p σ
  induction p with
  | zero => rfl
  | succ p ih =>
    rw [runUpTo_succ, runUpTo_succ, ih]
    unfold execLive
    cases hft : fT p with
    | false => simp [hft]
    | true =>
      obtain ⟨h1, h2, h3, h4⟩ := hag p hft
      rw [h1, h2, h3, h4]

theorem evalOneGen_agree (info info2 : FormulaInfo) (sinFn : ℚ → ℚ)
    (fT : ℕ → Bool)
    (hag : ∀ j, fT j = true →
      fld info2.transformSequence j = fld info.transformSequence j ∧
      fld info2.source j = fld info.source j ∧
      fld info2.control j = fld info.control j ∧
      fld info2.dest j = fld info.dest j) :
    evalOneGen info2 sinFn fT = evalOneGen info sinFn fT := by
  funext σ
  unfold evalOneGen
  rw [run_agree info info2 sinFn fT hag]

theorem qbistGen_agree (info info2 : FormulaInfo) (sinFn : ℚ → ℚ)
    (fT : ℕ → Bool) (sg : ℕ → ℚ → ℚ → V) (x y w h : ℚ) (os : ℕ)
    (hag : ∀ j, fT j = true →
      fld info2.transformSequence j = fld info.transformSequence j ∧
      fld info2.source j = fld info.source j ∧
      fld info2.control j = fld info.control j ∧
      fld info2.dest j = fld info.dest j) :
    qbistGen info2 sinFn fT sg x y w h os = qbistGen info sinFn fT sg x y w h os := by
  unfold qbistGen qbistAccumGen
  rw [evalOneGen_agree info info2 sinFn fT hag]

/-- Congruence of the oversampling accumulation in the per-subsample
kernel value. -/
theorem qbistGen_seed_congr (info : FormulaInfo) (sinFn : ℚ → ℚ)
    (fT : ℕ → Bool) (sg sg' : ℕ → ℚ → ℚ → V) (x y w h : ℚ) (os : ℕ)
    (hone : ∀ u v, evalOneGen info sinFn fT (fun i => sg i u v) =
      evalOneGen info sinFn fT (fun i => sg' i u v)) :
    qbistGen info sinFn fT sg x y w h os =
      qbistGen info sinFn fT sg' x y w h os := by
  unfold qbistGen qbistAccumGen
  simp only [hone]

/-- C1: Liveness soundness.  Let `optimize info = (nInfo, fl)` (for a
formula whose kinds are in range).  Then (a) `qbist`'s colour is unchanged
when every step whose `usedTransFlag` is `false` has its four fields
replaced by arbitrary values; (b) `qbist`'s colour (as `qbistGen`, the
kernel with its register-initialisation rule made explicit) is unchanged
when every register whose `usedRegFlag` is `false` has its initial seed
replaced by an arbitrary value, `qbist` itself being `qbistGen` at the
source's seeding rule; and (c) `usedTransFlag[j]` is true iff step `j` is
demanded — reached, directly or transitively, by the backward data-flow
walk from the final register-0 read — and `usedRegFlag[m]` likewise. -/
theorem liveness_soundness (info nInfo : FormulaInfo) (fl : Flags)
    (hopt : optimize info = (nInfo, fl))
    (hK : ∀ i < MAX_TRANSFORMS,
      fld info.transformSequence i < NUM_TRANSFORM_TYPES)
    (sinFn : ℚ → ℚ) (x y w h : ℚ) (os : ℕ) :
    (∀ info2 : FormulaInfo,
      (∀ j, fl.usedTransFlag j = true →
        fld info2.transformSequence j = fld nInfo.transformSequence j ∧
        fld info2.source j = fld nInfo.source j ∧
        fld info2.control j = fld nInfo.control j ∧
        fld info2.dest j = fld nInfo.dest j) →
      qbist info2 x y w h os fl.usedTransFlag fl.usedRegFlag sinFn =
        qbist nInfo x y w h os fl.usedTransFlag fl.usedRegFlag sinFn) ∧
    (∀ sg sg' : ℕ → ℚ → ℚ → V,
      (∀ m u v, fl.usedRegFlag m = true → sg m u v = sg' m u v) →
      qbistGen nInfo sinFn fl.usedTransFlag sg x y w h os =
        qbistGen nInfo sinFn fl.usedTransFlag sg' x y w h os) ∧
    (qbist nInfo x y w h os fl.usedTransFlag fl.usedRegFlag sinFn =
      qbistGen nInfo sinFn fl.usedTransFlag
        (fun i u v =>
          if fl.usedRegFlag i then (u, v, (i : ℚ) / (NUM_REGISTERS : ℚ))
          else (0, 0, 0)) x y w h os) ∧
    (∀ j, fl.usedTransFlag j = true ↔
      ∃ p n, Demanded nInfo.dest nInfo.source nInfo.control p n ∧
        lastWriter nInfo.dest p n = some j) ∧
    (∀ m, fl.usedRegFlag m = true ↔
      ∃ p, Demanded nInfo.dest nInfo.source nInfo.control p m ∧
        lastWriter nInfo.dest p m = none) := by
  have hn : nInfo = normalizeControl info := by
    have := congrArg Prod.fst hopt
    exact this.symm
  have hf : fl = optimizeFlags (normalizeControl info) := by
    have := congrArg Prod.snd hopt
    exact this.symm
  subst hn hf
  have hK2 : ∀ i < MAX_TRANSFORMS,
      fld (normalizeControl info).transformSequence i < NUM_TRANSFORM_TYPES := hK
  refine ⟨?_, ?_, rfl, ?_, ?_⟩
  · intro info2 hag
    unfold qbist
    exact qbistGen_agree (normalizeControl info) info2 sinFn _ _ x y w h os hag
  · intro sg sg' hsg
    apply qbistGen_seed_congr
    intro u v
    exact demanded_run_eq (normalizeControl info) sinFn hK2
      (fun i => sg i u v) (fun i => sg' i u v)
      (fun m hm => hsg m u v hm) MAX_TRANSFORMS 0 ReachFrom.refl
  · intro j
    exact optimizeFlags_trans_iff (normalizeControl info) j
  · intro m
    exact optimizeFlags_reg_iff (normalizeControl info) m

/-- C1 witness: the theorem instantiated at a concrete formula (all four
arrays empty, so every field reads 0) and concrete coordinates. -/
theorem liveness_soundness_witness :
    (optimize ⟨[], [], [], []⟩).2.usedTransFlag 0 = true ↔
      ∃ p n, Demanded (optimize ⟨[], [], [], []⟩).1.dest
          (optimize ⟨[], [], [], []⟩).1.source
          (optimize ⟨[], [], [], []⟩).1.control p n ∧
        lastWriter (optimize ⟨[], [], [], []⟩).1.dest p n = some 0 :=
  (liveness_soundness ⟨[], [], [], []⟩ (optimize ⟨[], [], [], []⟩).1
    (optimize ⟨[], [], [], []⟩).2 rfl (by decide) (fun _ => 0)
    0 0 1 1 1).2.2.2.1 0

/-- Componentwise dot product `src · ctrl` (spec §4.2). -/
def dot3 (a b : V) : ℚ :=
  a.1 * b.1 + a.2.1 * b.2.1 + a.2.2 * b.2.2

/-- Scalar multiple of a 3-vector (spec §4.2). -/
def smul3 (t : ℚ) (a : V) : V :=
  (t * a.1, t * a.2.1, t * a.2.2)

/-- Componentwise map over a 3-vector. -/
def map3 (f : ℚ → ℚ) (a : V) : V :=
  (f a.1, f a.2.1, f a.2.2)

/-- Componentwise combination of two 3-vectors. -/
def zip3 (f : ℚ → ℚ → ℚ) (a b : V) : V :=
  (f a.1 b.1, f a.2.1 b.2.1, f a.2.2 b.2.2)

/-- The per-kind step formulas exactly as the spec's §4.2 table words
them (refinement target for the step dispatch of `qbist`):
PROJECTION scales `src` by `src · ctrl`; SHIFT adds then subtracts 1.0
from components ≥ 1.0; SHIFTBACK subtracts then adds 1.0 to components
≤ 0.0; ROTATE and ROTATE2 cyclically permute `src`; MULTIPLY multiplies
componentwise; SINE is `0.5 + 0.5*sin(20*src*ctrl)` componentwise;
CONDITIONAL selects `src` when `ctrl.x+ctrl.y+ctrl.z > 0.5`, else `ctrl`;
COMPLEMENT is `1 − src` componentwise. -/
def specStepOut (sinFn : ℚ → ℚ) (k : ℕ) (s c : V) : Option V :=
  if k = PROJECTION then some (smul3 (dot3 s c) s)
  else if k = SHIFT then
    some (map3 (fun t => if t ≥ 1 then t - 1 else t)
      (zip3 (fun a b => a + b) s c))
  else if k = SHIFTBACK then
    some (map3 (fun t => if t ≤ 0 then t + 1 else t)
      (zip3 (fun a b => a - b) s c))
  else if k = ROTATE then some (s.2.1, s.2.2, s.1)
  else if k = ROTATE2 then some (s.2.2, s.1, s.2.1)
  else if k = MULTIPLY then some (zip3 (fun a b => a * b) s c)
  else if k = SINE then
    some (map3 (fun t => 0.5 + 0.5 * sinFn (20 * t)) (zip3 (fun a b => a * b) s c))
  else if k = CONDITIONAL then
    some (if c.1 + c.2.1 + c.2.2 > 0.5 then s else c)
  else if k = COMPLEMENT then some (map3 (fun t => 1 - t) s)
  else none

/-- C2: Per-step evaluation semantics.  (i) For every in-range kind the
step dispatch of `qbist` computes exactly the spec's per-kind formula
(`specStepOut`); (ii) a live step `i` reads `registers[source]` and
`registers[control]` from the pre-update register file (the state after
steps `0..i-1`) and replaces `registers[dest]` with the step's output,
producing the register file visible to all subsequent steps; (iii) a
skipped step leaves the register file unchanged. -/
theorem step_semantics (info : FormulaInfo) (sinFn : ℚ → ℚ)
    (fT : ℕ → Bool) (σ : ℕ → V) :
    (∀ k, k < NUM_TRANSFORM_TYPES →
      ∀ s c, stepOut sinFn k s c = specStepOut sinFn k s c) ∧
    (∀ i out, fT i = true →
      stepOut sinFn (fld info.transformSequence i)
          (runUpTo info sinFn fT σ i (fld info.source i))
          (runUpTo info sinFn fT σ i (fld info.control i)) = some out →
      runUpTo info sinFn fT σ (i + 1) =
        Function.update (runUpTo info sinFn fT σ i) (fld info.dest i) out) ∧
    (∀ i, fT i = false →
      runUpTo info sinFn fT σ (i + 1) = runUpTo info sinFn fT σ i) := by
  refine ⟨?_, ?_, ?_⟩
  · intro k hk s c
    have h9 : k < 9 := hk
    interval_cases k <;>
      simp [stepOut, specStepOut, dot3, smul3, map3, zip3, wrapDown, wrapUp,
        PROJECTION, SHIFT, SHIFTBACK, ROTATE, ROTATE2, MULTIPLY, SINE,
        CONDITIONAL, COMPLEMENT, mul_assoc]
  · intro i out hfi hout
    rw [runUpTo_succ]
    unfold execLive
    rw [hfi]
    simp only [if_true]
    rw [hout]
  · intro i hfi
    rw [runUpTo_succ]
    unfold execLive
    rw [hfi]
    simp

/-- C2 witness: the theorem instantiated at a concrete formula, a live
SHIFT step 0 and the flag set that runs only step 0. -/
theorem step_semantics_witness :
    stepOut (fun _ => 0) SHIFT (0.7, 0.7, 0.7) (0.5, 0.5, 0.5) =
      specStepOut (fun _ => 0) SHIFT (0.7, 0.7, 0.7) (0.5, 0.5, 0.5) :=
  (step_semantics ⟨[1], [0], [0], [0]⟩ (fun _ => 0) (fun i => i = 0)
    (fun _ => (0.7, 0.7, 0.7))).1 SHIFT (by decide) _ _

theorem fld_append_left {l l2 : List ℕ} {n : ℕ} (h : n < l.length) :
    fld (l ++ l2) n = fld l n := by
  simp [fld, List.getD_eq_getElem?_getD, List.getElem?_append, h]

theorem fld_append_right {l l2 : List ℕ} {n : ℕ} (h : l.length ≤ n) :
    fld (l ++ l2) n = fld l2 (n - l.length) := by
  simp [fld, List.getD_eq_getElem?_getD, List.getElem?_append,
    Nat.not_lt.mpr h]

theorem fld_map_range {g : ℕ → ℕ} {n i : ℕ} (h : i < n) :
    fld ((List.range n).map g) i = g i := by
  simp [fld, List.getD_eq_getElem?_getD, List.getElem?_map,
    List.getElem?_range, h]

theorem blk_succ (g : ℕ → ℕ) (n : ℕ) : blk g (n + 1) = blk g n ++ be16 (g n) := by
  simp [blk, List.range_succ]

theorem blk_length (g : ℕ → ℕ) (n : ℕ) : (blk g n).length = 2 * n := by
  induction n with
  | zero => rfl
  | succ n ih =>
    rw [blk_succ]
    simp [be16, ih]
    omega

theorem blk_lo {g : ℕ → ℕ} {n i : ℕ} (h : i < n) :
    fld (blk g n) (2 * i) = g i % 65536 / 256 := by
  induction n with
  | zero => omega
  | succ n ih =>
    rw [blk_succ]
    rcases Nat.lt_or_ge i n with h1 | h1
    · rw [fld_append_left (by rw [blk_length]; omega)]
      exact ih h1
    · have hin : i = n := by omega
      subst hin
      rw [fld_append_right (by rw [blk_length])]
      rw [blk_length]
      simp [be16, fld]

theorem blk_hi {g : ℕ → ℕ} {n i : ℕ} (h : i < n) :
    fld (blk g n) (2 * i + 1) = g i % 256 := by
  induction n with
  | zero => omega
  | succ n ih =>
    rw [blk_succ]
    rcases Nat.lt_or_ge i n with h1 | h1
    · rw [fld_append_left (by rw [blk_length]; omega)]
      exact ih h1
    · have hin : i = n := by omega
      subst hin
      rw [fld_append_right (by rw [blk_length]; omega)]
      rw [blk_length]
      have e : 2 * i + 1 - 2 * i = 1 := by omega
      rw [e]
      simp [be16, fld]

/-- Recombining the two bytes of a big-endian 16-bit write recovers the
value modulo 2^16. -/
theorem u16_of_bytes (v : ℕ) : 256 * (v % 65536 / 256) + v % 256 = v % 65536 := by
  have h2 : v % 256 = v % 65536 % 256 := (Nat.mod_mod_of_dvd v (by norm_num)).symm
  rw [h2]
  exact Nat.div_add_mod (v % 65536) 256

theorem export_length (info : FormulaInfo) :
    (exportToGimpFormat info).length = 288 := by
  unfold exportToGimpFormat
  simp [blk_length, MAX_TRANSFORMS]

/-- Skipping one 72-byte block of the buffer. -/
theorem fld_block2 {A rest : List ℕ} (hA : A.length = 72) (j : ℕ) :
    fld (A ++ rest) (72 + j) = fld rest j := by
  rw [fld_append_right (by omega), hA]
  congr 1
  omega

/-- The encoded buffer reads back, at each 16-bit slot, the corresponding
field value modulo 2^16: kinds at offsets `2i`, sources at `72+2i`,
controls at `144+2i`, dests at `216+2i`. -/
theorem export_u16 (info : FormulaInfo) (i : ℕ) (h : i < MAX_TRANSFORMS) :
    getU16 (exportToGimpFormat info) (2 * i) =
      fld info.transformSequence i % 65536 ∧
    getU16 (exportToGimpFormat info) (72 + 2 * i) = fld info.source i % 65536 ∧
    getU16 (exportToGimpFormat info) (144 + 2 * i) =
      fld info.control i % 65536 ∧
    getU16 (exportToGimpFormat info) (216 + 2 * i) =
      fld info.dest i % 65536 := by
  have h36 : i < 36 := h
  have hlen : ∀ g : ℕ → ℕ, (blk g MAX_TRANSFORMS).length = 72 := by
    intro g
    rw [blk_length]
    decide
  unfold exportToGimpFormat getU16
  refine ⟨?_, ?_, ?_, ?_⟩
  · rw [fld_append_left (by rw [hlen]; omega),
      fld_append_left (by rw [hlen]; omega), blk_lo h, blk_hi h, u16_of_bytes]
  · have e2 : 72 + 2 * i + 1 = 72 + (2 * i + 1) := by omega
    rw [e2, fld_block2 (hlen _), fld_block2 (hlen _),
      fld_append_left (by rw [hlen]; omega),
      fld_append_left (by rw [hlen]; omega), blk_lo h, blk_hi h, u16_of_bytes]
  · have e1 : 144 + 2 * i = 72 + (72 + 2 * i) := by omega
    have e2 : 144 + 2 * i + 1 = 72 + (72 + (2 * i + 1)) := by omega
    rw [e2, e1, fld_block2 (hlen _), fld_block2 (hlen _),
      fld_block2 (hlen _), fld_block2 (hlen _),
      fld_append_left (by rw [hlen]; omega),
      fld_append_left (by rw [hlen]; omega), blk_lo h, blk_hi h, u16_of_bytes]
  · have e1 : 216 + 2 * i = 72 + (72 + (72 + 2 * i)) := by omega
    have e2 : 216 + 2 * i + 1 = 72 + (72 + (72 + (2 * i + 1))) := by omega
    rw [e2, e1, fld_block2 (hlen _), fld_block2 (hlen _),
      fld_block2 (hlen _), fld_block2 (hlen _),
      fld_block2 (hlen _), fld_block2 (hlen _), blk_lo h, blk_hi h,
      u16_of_bytes]

/-- C3: Decode guard and sanitisation.  `importFromGimpFormat` returns a
`RangeError` iff the buffer's byte length is not 288; on any 288-byte
buffer it never fails and returns the formula whose 36 kinds are the
decoded big-endian 16-bit integers reduced mod 9 and whose register
fields are reduced mod 6, so every field is in canonical range. -/
theorem import_guard (buf : List ℕ) :
    ((∃ e, importFromGimpFormat buf = Except.error e) ↔ buf.length ≠ 288) ∧
    (buf.length = 288 →
      ∃ f, importFromGimpFormat buf = Except.ok f ∧
        (∀ i < MAX_TRANSFORMS,
          fld f.transformSequence i = getU16 buf (2 * i) % NUM_TRANSFORM_TYPES ∧
          fld f.source i = getU16 buf (72 + 2 * i) % NUM_REGISTERS ∧
          fld f.control i = getU16 buf (144 + 2 * i) % NUM_REGISTERS ∧
          fld f.dest i = getU16 buf (216 + 2 * i) % NUM_REGISTERS) ∧
        f.InRange ∧ f.Wf) := by
  have h288 : MAX_TRANSFORMS * 2 * 4 = 288 := by decide
  by_cases hlen : buf.length = 288
  · have hok : importFromGimpFormat buf = Except.ok
        { transformSequence := (List.range MAX_TRANSFORMS).map fun i =>
            getU16 buf (2 * i) % NUM_TRANSFORM_TYPES
          source := (List.range MAX_TRANSFORMS).map fun i =>
            getU16 buf (72 + 2 * i) % NUM_REGISTERS
          control := (List.range MAX_TRANSFORMS).map fun i =>
            getU16 buf (144 + 2 * i) % NUM_REGISTERS
          dest := (List.range MAX_TRANSFORMS).map fun i =>
            getU16 buf (216 + 2 * i) % NUM_REGISTERS } := by
      unfold importFromGimpFormat
      rw [if_neg (by rw [h288]; exact fun hne => hne hlen)]
    refine ⟨⟨?_, fun hne => absurd hlen hne⟩, fun _ => ⟨_, hok, ?_, ?_, ?_⟩⟩
    · rintro ⟨e, he⟩
      rw [hok] at he
      exact absurd he (by simp)
    · intro i hi
      exact ⟨fld_map_range hi, fld_map_range hi, fld_map_range hi,
        fld_map_range hi⟩
    · intro i hi
      refine ⟨?_, ?_, ?_, ?_⟩ <;> rw [fld_map_range hi] <;>
        exact Nat.mod_lt _ (by decide)
    · refine ⟨?_, ?_, ?_, ?_⟩ <;> simp
  · refine ⟨⟨fun _ => hlen,
      fun _ => ⟨"RangeError: Expected 288 byte GIMP Qbist buffer", ?_⟩⟩,
      fun hc => absurd hc hlen⟩
    unfold importFromGimpFormat
    rw [if_pos (by rw [h288]; exact hlen)]

/-- C3 witness: the guard refuses a 1-byte buffer, and accepts an
arbitrary 288-byte buffer (all bytes 5), sanitising every field. -/
theorem import_guard_witness :
    ((∃ e, importFromGimpFormat [7] = Except.error e) ↔ [7].length ≠ 288) ∧
    (∃ f, importFromGimpFormat (List.replicate 288 5) = Except.ok f ∧
      (∀ i < MAX_TRANSFORMS,
        fld f.transformSequence i =
          getU16 (List.replicate 288 5) (2 * i) % NUM_TRANSFORM_TYPES ∧
        fld f.source i =
          getU16 (List.replicate 288 5) (72 + 2 * i) % NUM_REGISTERS ∧
        fld f.control i =
          getU16 (List.replicate 288 5) (144 + 2 * i) % NUM_REGISTERS ∧
        fld f.dest i =
          getU16 (List.replicate 288 5) (216 + 2 * i) % NUM_REGISTERS) ∧
      f.InRange ∧ f.Wf) :=
  ⟨(import_guard [7]).1,
    (import_guard (List.replicate 288 5)).2 (by rw [List.length_replicate])⟩

/-- C4: Encoding round-trip.  For a well-formed formula with every field
in canonical range, decoding the encoded buffer reproduces the formula
exactly; the buffer is 288 bytes, laid out as four consecutive 72-byte
blocks of 36 big-endian 16-bit integers holding `kind`, `source`,
`control`, `dest` in that order. -/
theorem gimp_roundtrip (f : FormulaInfo) (hwf : f.Wf) (hir : f.InRange) :
    importFromGimpFormat (exportToGimpFormat f) = Except.ok f ∧
    (exportToGimpFormat f).length = 288 ∧
    ∀ i < MAX_TRANSFORMS,
      getU16 (exportToGimpFormat f) (2 * i) = fld f.transformSequence i ∧
      getU16 (exportToGimpFormat f) (72 + 2 * i) = fld f.source i ∧
      getU16 (exportToGimpFormat f) (144 + 2 * i) = fld f.control i ∧
      getU16 (exportToGimpFormat f) (216 + 2 * i) = fld f.dest i := by
  obtain ⟨hts, hsrc, hctl, hdst⟩ := hwf
  have hlay : ∀ i < MAX_TRANSFORMS,
      getU16 (exportToGimpFormat f) (2 * i) = fld f.transformSequence i ∧
      getU16 (exportToGimpFormat f) (72 + 2 * i) = fld f.source i ∧
      getU16 (exportToGimpFormat f) (144 + 2 * i) = fld f.control i ∧
      getU16 (exportToGimpFormat f) (216 + 2 * i) = fld f.dest i := by
    intro i hi
    obtain ⟨e1, e2, e3, e4⟩ := export_u16 f i hi
    obtain ⟨r1, r2, r3, r4⟩ := hir i hi
    rw [e1, e2, e3, e4]
    exact ⟨Nat.mod_eq_of_lt (Nat.lt_trans r1 (by decide)),
      Nat.mod_eq_of_lt (Nat.lt_trans r2 (by decide)),
      Nat.mod_eq_of_lt (Nat.lt_trans r3 (by decide)),
      Nat.mod_eq_of_lt (Nat.lt_trans r4 (by decide))⟩
  have h288 : MAX_TRANSFORMS * 2 * 4 = 288 := by decide
  refine ⟨?_, export_length f, hlay⟩
  unfold importFromGimpFormat
  rw [if_neg (by rw [h288]; exact fun hne => hne (export_length f))]
  congr 1
  cases f with
  | mk ts src ctl dst =>
    simp only [FormulaInfo.mk.injEq]
    have hts36 : ts.length = 36 := hts
    have hsrc36 : src.length = 36 := hsrc
    have hctl36 : ctl.length = 36 := hctl
    have hdst36 : dst.length = 36 := hdst
    refine ⟨?_, ?_, ?_, ?_⟩
    · refine List.ext_getElem (by simp [hts36, MAX_TRANSFORMS]) ?_
      intro i h1 h2
      have hi : i < MAX_TRANSFORMS := by
        simp at h1
        exact h1
      have hfe : fld ts i = ts[i] := by
        unfold fld
        rw [List.getD_eq_getElem _ _ (by omega)]
      have hr : fld ts i < NUM_TRANSFORM_TYPES := (hir i hi).1
      simp only [List.getElem_map, List.getElem_range]
      rw [(hlay i hi).1]
      show fld ts i % NUM_TRANSFORM_TYPES = ts[i]
      rw [hfe] at hr
      rw [hfe]
      exact Nat.mod_eq_of_lt hr
    · refine List.ext_getElem (by simp [hsrc36, MAX_TRANSFORMS]) ?_
      intro i h1 h2
      have hi : i < MAX_TRANSFORMS := by
        simp at h1
        exact h1
      have hfe : fld src i = src[i] := by
        unfold fld
        rw [List.getD_eq_getElem _ _ (by omega)]
      have hr : fld src i < NUM_REGISTERS := (hir i hi).2.1
      simp only [List.getElem_map, List.getElem_range]
      rw [(hlay i hi).2.1]
      show fld src i % NUM_REGISTERS = src[i]
      rw [hfe] at hr
      rw [hfe]
      exact Nat.mod_eq_of_lt hr
    · refine List.ext_getElem (by simp [hctl36, MAX_TRANSFORMS]) ?_
      intro i h1 h2
      have hi : i < MAX_TRANSFORMS := by
        simp at h1
        exact h1
      have hfe : fld ctl i = ctl[i] := by
        unfold fld
        rw [List.getD_eq_getElem _ _ (by omega)]
      have hr : fld ctl i < NUM_REGISTERS := (hir i hi).2.2.1
      simp only [List.getElem_map, List.getElem_range]
      rw [(hlay i hi).2.2.1]
      show fld ctl i % NUM_REGISTERS = ctl[i]
      rw [hfe] at hr
      rw [hfe]
      exact Nat.mod_eq_of_lt hr
    · refine List.ext_getElem (by simp [hdst36, MAX_TRANSFORMS]) ?_
      intro i h1 h2
      have hi : i < MAX_TRANSFORMS := by
        simp at h1
        exact h1
      have hfe : fld dst i = dst[i] := by
        unfold fld
        rw [List.getD_eq_getElem _ _ (by omega)]
      have hr : fld dst i < NUM_REGISTERS := (hir i hi).2.2.2
      simp only [List.getElem_map, List.getElem_range]
      rw [(hlay i hi).2.2.2]
      show fld dst i % NUM_REGISTERS = dst[i]
      rw [hfe] at hr
      rw [hfe]
      exact Nat.mod_eq_of_lt hr

/-- C4 witness: the round-trip at a concrete in-range formula. -/
theorem gimp_roundtrip_witness :
    importFromGimpFormat (exportToGimpFormat
      ⟨List.replicate 36 3, List.replicate 36 1, List.replicate 36 2,
        List.replicate 36 0⟩) = Except.ok
      ⟨List.replicate 36 3, List.replicate 36 1, List.replicate 36 2,
        List.replicate 36 0⟩ :=
  (gimp_roundtrip _ (by unfold FormulaInfo.Wf; decide)
    (by unfold FormulaInfo.InRange; decide)).1

theorem foldl_add_sum {M : Type} [AddCommMonoid M] (f : ℕ → M) (a : M) (n : ℕ) :
    (List.range n).foldl (fun acc i => acc + f i) a =
      a + ∑ i ∈ Finset.range n, f i := by
  induction n with
  | zero => simp
  | succ n ih =>
    rw [List.range_succ]
    simp [List.foldl_append, ih, Finset.sum_range_succ, add_assoc]

/-- The nested oversampling loops of `qbist` accumulate exactly the sum of
the kernel over the subsample grid. -/
theorem qbistAccumGen_eq_sum (info : FormulaInfo) (sinFn : ℚ → ℚ)
    (fT : ℕ → Bool) (sg : ℕ → ℚ → ℚ → V) (x y w h : ℚ) (os : ℕ) :
    qbistAccumGen info sinFn fT sg x y w h os =
      ∑ yy ∈ Finset.range os, ∑ xx ∈ Finset.range os,
        evalOneGen info sinFn fT (fun i =>
          sg i ((x * (os : ℚ) + (xx : ℚ)) / (w * (os : ℚ)))
            ((y * (os : ℚ) + (yy : ℚ)) / (h * (os : ℚ)))) := by
  unfold qbistAccumGen
  have hinner : ∀ (acc : V) (yy : ℕ),
      (List.range os).foldl (fun (acc2 : V) (xx : ℕ) =>
        acc2 + evalOneGen info sinFn fT (fun i =>
          sg i ((x * (os : ℚ) + (xx : ℚ)) / (w * (os : ℚ)))
            ((y * (os : ℚ) + (yy : ℚ)) / (h * (os : ℚ))))) acc =
      acc + ∑ xx ∈ Finset.range os,
        evalOneGen info sinFn fT (fun i =>
          sg i ((x * (os : ℚ) + (xx : ℚ)) / (w * (os : ℚ)))
            ((y * (os : ℚ) + (yy : ℚ)) / (h * (os : ℚ)))) := by
    intro acc yy
    exact foldl_add_sum _ acc os
  simp only [hinner]
  rw [foldl_add_sum _ _ os]
  exact zero_add _

/-- C5: Pixel reduction.  For oversampling `k ≥ 1`, `qbist` sums the
kernel value over the `k × k` subsample grid — the kernel run from
registers seeded `(u, v, r/6)` when flagged and `(0,0,0)` otherwise, at
`u = (x*k+dx)/(width*k)`, `v = (y*k+dy)/(height*k)` — and divides each
component of the sum by `k*k`; the caller turns a colour into 8-bit
channels by `floor(component * 255)` with alpha fixed at 255. -/
theorem pixel_reduction (info : FormulaInfo) (sinFn : ℚ → ℚ)
    (fT fR : ℕ → Bool) (x y w h : ℚ) (k : ℕ) (hk : 1 ≤ k) :
    (qbist info x y w h k fT fR sinFn =
      ((∑ dy ∈ Finset.range k, ∑ dx ∈ Finset.range k,
          evalOneGen info sinFn fT (fun r =>
            if fR r then
              ((x * (k : ℚ) + (dx : ℚ)) / (w * (k : ℚ)),
               (y * (k : ℚ) + (dy : ℚ)) / (h * (k : ℚ)),
               (r : ℚ) / 6)
            else (0, 0, 0))).1 / ((k * k : ℕ) : ℚ),
       (∑ dy ∈ Finset.range k, ∑ dx ∈ Finset.range k,
          evalOneGen info sinFn fT (fun r =>
            if fR r then
              ((x * (k : ℚ) + (dx : ℚ)) / (w * (k : ℚ)),
               (y * (k : ℚ) + (dy : ℚ)) / (h * (k : ℚ)),
               (r : ℚ) / 6)
            else (0, 0, 0))).2.1 / ((k * k : ℕ) : ℚ),
       (∑ dy ∈ Finset.range k, ∑ dx ∈ Finset.range k,
          evalOneGen info sinFn fT (fun r =>
            if fR r then
              ((x * (k : ℚ) + (dx : ℚ)) / (w * (k : ℚ)),
               (y * (k : ℚ) + (dy : ℚ)) / (h * (k : ℚ)),
               (r : ℚ) / 6)
            else (0, 0, 0))).2.2 / ((k * k : ℕ) : ℚ))) ∧
    (∀ c : V, channelize c = (⌊c.1 * 255⌋, ⌊c.2.1 * 255⌋, ⌊c.2.2 * 255⌋, 255)) := by
  constructor
  · unfold qbist qbistGen
    rw [qbistAccumGen_eq_sum]
    simp [NUM_REGISTERS]
  · intro c
    rfl

/-- C5 witness: channel conversion at a concrete colour via the theorem
at oversampling 1. -/
theorem pixel_reduction_witness :
    channelize (1, 1 / 2, 0) = (255, 127, 0, 255) := by
  rw [(pixel_reduction ⟨[], [], [], []⟩ (fun _ => 0) (fun _ => false)
    (fun _ => false) 0 0 1 1 1 (by decide)).2 (1, 1 / 2, 0)]
  norm_num

theorem fld_set (l : List ℕ) (i a j : ℕ) :
    fld (l.set i a) j = if i = j ∧ i < l.length then a else fld l j := by
  unfold fld
  rw [List.getD_eq_getElem?_getD, List.getD_eq_getElem?_getD,
    List.getElem?_set]
  by_cases h1 : i = j
  · subst h1
    by_cases h2 : i < l.length
    · simp [h2]
    · simp [h2, List.getElem?_eq_none (Nat.le_of_not_lt h2)]
  · simp [h1]

/-- The normalisation loop's fold over `List.range n` preserves the
length of the control array. -/
theorem normFold_length (ts d ctl : List ℕ) (n : ℕ) :
    ((List.range n).foldl (fun acc i =>
      if fld ts i = ROTATE ∨ fld ts i = ROTATE2 ∨ fld ts i = COMPLEMENT
      then acc.set i (fld d i) else acc) ctl).length = ctl.length := by
  induction n with
  | zero => rfl
  | succ n ih =>
    rw [List.range_succ, List.foldl_append]
    simp only [List.foldl_cons, List.foldl_nil]
    split
    · simp [ih]
    · exact ih

/-- Element-wise characterisation of the normalisation loop: position `j`
holds `dest[j]` when `j` was visited, its kind is one of the three
control-free kinds and `j` is inside the array, and is untouched
otherwise. -/
theorem normFold_get (ts d ctl : List ℕ) (n : ℕ) (j : ℕ) :
    fld ((List.range n).foldl (fun acc i =>
      if fld ts i = ROTATE ∨ fld ts i = ROTATE2 ∨ fld ts i = COMPLEMENT
      then acc.set i (fld d i) else acc) ctl) j =
    if j < n ∧ (fld ts j = ROTATE ∨ fld ts j = ROTATE2 ∨
        fld ts j = COMPLEMENT) ∧ j < ctl.length
    then fld d j else fld ctl j := by
  induction n with
  | zero => simp
  | succ n ih =>
    rw [List.range_succ, List.foldl_append]
    simp only [List.foldl_cons, List.foldl_nil]
    by_cases hc : fld ts n = ROTATE ∨ fld ts n = ROTATE2 ∨
        fld ts n = COMPLEMENT
    · rw [if_pos hc, fld_set, normFold_length]
      by_cases hj : n = j ∧ n < ctl.length
      · obtain ⟨hj1, hj2⟩ := hj
        subst hj1
        rw [if_pos ⟨rfl, hj2⟩, if_pos ⟨Nat.lt_succ_self n, hc, hj2⟩]
      · rw [if_neg hj, ih]
        by_cases hA : j < n ∧ (fld ts j = ROTATE ∨ fld ts j = ROTATE2 ∨
            fld ts j = COMPLEMENT) ∧ j < ctl.length
        · rw [if_pos hA, if_pos ⟨Nat.lt_succ_of_lt hA.1, hA.2⟩]
        · by_cases hB : j < n + 1 ∧ (fld ts j = ROTATE ∨ fld ts j = ROTATE2 ∨
              fld ts j = COMPLEMENT) ∧ j < ctl.length
          · exfalso
            rcases Nat.lt_or_ge j n with hlt | hge
            · exact hA ⟨hlt, hB.2⟩
            · have hjn : j = n := by omega
              subst hjn
              exact hj ⟨rfl, hB.2.2⟩
          · rw [if_neg hA, if_neg hB]
    · rw [if_neg hc, ih]
      by_cases hA : j < n ∧ (fld ts j = ROTATE ∨ fld ts j = ROTATE2 ∨
          fld ts j = COMPLEMENT) ∧ j < ctl.length
      · rw [if_pos hA, if_pos ⟨Nat.lt_succ_of_lt hA.1, hA.2⟩]
      · by_cases hB : j < n + 1 ∧ (fld ts j = ROTATE ∨ fld ts j = ROTATE2 ∨
            fld ts j = COMPLEMENT) ∧ j < ctl.length
        · exfalso
          rcases Nat.lt_or_ge j n with hlt | hge
          · exact hA ⟨hlt, hB.2⟩
          · have hjn : j = n := by omega
            subst hjn
            exact hc hB.2.1
        · rw [if_neg hA, if_neg hB]

/-- C6: Normalisation side effect and frame.  `optimize` rewrites the
formula's `control` array in place — before the liveness walk, which runs
on the rewritten arrays — setting `control[i] = dest[i]` for exactly the
steps whose kind is ROTATE, ROTATE2 or COMPLEMENT, and changes nothing
else: `transformSequence`, `source` and `dest` are returned unchanged,
the control array keeps its length, and control entries of steps of other
kinds keep their values. -/
theorem optimize_normalization (info nInfo : FormulaInfo) (fl : Flags)
    (hopt : optimize info = (nInfo, fl)) (hwf : info.Wf) :
    nInfo.transformSequence = info.transformSequence ∧
    nInfo.source = info.source ∧
    nInfo.dest = info.dest ∧
    nInfo.control.length = info.control.length ∧
    (∀ i < MAX_TRANSFORMS,
      fld nInfo.control i =
        if fld info.transformSequence i = ROTATE ∨
            fld info.transformSequence i = ROTATE2 ∨
            fld info.transformSequence i = COMPLEMENT
        then fld info.dest i else fld info.control i) ∧
    fl = checkLastModified nInfo.dest nInfo.source nInfo.control
      MAX_TRANSFORMS 0 initFlags := by
  have hn : nInfo = normalizeControl info := (congrArg Prod.fst hopt).symm
  have hf : fl = checkLastModified (normalizeControl info).dest
      (normalizeControl info).source (normalizeControl info).control
      MAX_TRANSFORMS 0 initFlags := (congrArg Prod.snd hopt).symm
  subst hn
  refine ⟨rfl, rfl, rfl, ?_, ?_, hf⟩
  · exact normFold_length info.transformSequence info.dest info.control
      MAX_TRANSFORMS
  · intro i hi
    have hlen : info.control.length = MAX_TRANSFORMS := hwf.2.2.1
    have hg := normFold_get info.transformSequence info.dest info.control
      MAX_TRANSFORMS i
    rw [show (normalizeControl info).control =
      (List.range MAX_TRANSFORMS).foldl (fun acc j =>
        if fld info.transformSequence j = ROTATE ∨
            fld info.transformSequence j = ROTATE2 ∨
            fld info.transformSequence j = COMPLEMENT
        then acc.set j (fld info.dest j) else acc) info.control from rfl, hg]
    by_cases hC : fld info.transformSequence i = ROTATE ∨
        fld info.transformSequence i = ROTATE2 ∨
        fld info.transformSequence i = COMPLEMENT
    · rw [if_pos ⟨hi, hC, by omega⟩, if_pos hC]
    · rw [if_neg (fun hcon => hC hcon.2.1), if_neg hC]

/-- C6 witness: the theorem at a concrete all-ROTATE formula. -/
theorem optimize_normalization_witness :
    (optimize ⟨List.replicate 36 3, List.replicate 36 0, List.replicate 36 1,
      List.replicate 36 2⟩).1.dest = List.replicate 36 2 :=
  (optimize_normalization
    ⟨List.replicate 36 3, List.replicate 36 0, List.replicate 36 1,
      List.replicate 36 2⟩ _ _ rfl
    (by unfold FormulaInfo.Wf; decide)).2.2.1

/-- Steps whose flag is `false` are skipped outright: if every flag in
`[a, b)` is `false`, the register file does not change. -/
theorem runUpTo_skip (info : FormulaInfo) (sinFn : ℚ → ℚ) (fT : ℕ → Bool)
    (σ : ℕ → V) :
    ∀ a b, a ≤ b → (∀ i, a ≤ i → i < b → fT i = false) →
      runUpTo info sinFn fT σ b = runUpTo info sinFn fT σ a := by
  intro a b
  induction b with
  | zero =>
    intro hab _
    have : a = 0 := Nat.le_zero.mp hab
    rw [this]
  | succ b ih =>
    intro hab hno
    rcases Nat.lt_or_ge a (b + 1) with h1 | h1
    · have hab2 : a ≤ b := Nat.lt_succ_iff.mp h1
      rw [runUpTo_succ]
      have hfb : fT b = false := hno b hab2 (Nat.lt_succ_self b)
      unfold execLive
      rw [hfb]
      simp only [Bool.false_eq_true, if_false]
      exact ih hab2 (fun i hi1 hi2 => hno i hi1 (Nat.lt_succ_of_lt hi2))
    · have : a = b + 1 := Nat.le_antisymm hab h1
      rw [this]

/-- In the C7 scenario (step 0 writes register 0, no later step does) the
backward scan from any position finds step 0. -/
theorem lastWriter_scenario (d : List ℕ) (h0 : fld d 0 = 0)
    (hrest : ∀ i, 1 ≤ i → i < MAX_TRANSFORMS → fld d i ≠ 0) :
    ∀ p, 1 ≤ p → p ≤ MAX_TRANSFORMS → lastWriter d p 0 = some 0 := by
  intro p
  induction p with
  | zero => omega
  | succ p ih =>
    intro _ hle
    rw [lastWriter]
    by_cases hp : p = 0
    · subst hp
      rw [if_pos h0]
    · rw [if_neg (hrest p (by omega) (by
        have : p + 1 ≤ MAX_TRANSFORMS := hle
        have h36 : MAX_TRANSFORMS = 36 := rfl
        omega))]
      exact ih (by omega) (by
        have h36 : MAX_TRANSFORMS = 36 := rfl
        omega)

theorem stepOut_rotate (sinFn : ℚ → ℚ) (s c : V) :
    stepOut sinFn ROTATE s c = some (s.2.1, s.2.2, s.1) := by
  simp [stepOut, ROTATE, PROJECTION, SHIFT, SHIFTBACK]

/-- At oversampling 1, `qbist` is a single kernel evaluation at
`u = x/width`, `v = y/height`. -/
theorem qbist_os1 (info : FormulaInfo) (sinFn : ℚ → ℚ) (fT fR : ℕ → Bool)
    (x y w h : ℚ) :
    qbist info x y w h 1 fT fR sinFn =
      evalOneGen info sinFn fT (fun i =>
        if fR i then (x / w, y / h, (i : ℚ) / (NUM_REGISTERS : ℚ))
        else (0, 0, 0)) := by
  unfold qbist qbistGen
  rw [qbistAccumGen_eq_sum]
  simp [Finset.sum_range_one, Prod.mk.eta]

/-- A live step with a matching kind rewrites `dest` with the step's
output. -/
theorem execLive_run (info : FormulaInfo) (sinFn : ℚ → ℚ) (fT : ℕ → Bool)
    (r : ℕ → V) (i : ℕ) (hf : fT i = true) {out : V}
    (hout : stepOut sinFn (fld info.transformSequence i)
      (r (fld info.source i)) (r (fld info.control i)) = some out) :
    execLive info sinFn fT r i = Function.update r (fld info.dest i) out := by
  unfold execLive
  rw [hf]
  simp only [if_true]
  rw [hout]

/-- C7: End-to-end scenario.  For any formula whose step 0 is
`ROTATE source:0 dest:0` and whose steps 1..35 never write register 0,
`optimize` marks exactly step 0 live and exactly register 0 seeded, and
`qbist` at oversampling 1 returns the rotated seed `(v, 0, u)` obtained
from `(u, v, 0)` with `u = x/width`, `v = y/height`; the caller scales it
to the 8-bit channels `(floor(v*255), 0, floor(u*255), 255)`. -/
theorem rotate_scenario (info : FormulaInfo) (hwf : info.Wf)
    (h0k : fld info.transformSequence 0 = ROTATE)
    (h0s : fld info.source 0 = 0)
    (h0d : fld info.dest 0 = 0)
    (hrest : ∀ i, 1 ≤ i → i < MAX_TRANSFORMS → fld info.dest i ≠ 0)
    (sinFn : ℚ → ℚ) (x y w h : ℚ) :
    (∀ j, (optimize info).2.usedTransFlag j = true ↔ j = 0) ∧
    (∀ r, (optimize info).2.usedRegFlag r = true ↔ r = 0) ∧
    qbist (optimize info).1 x y w h 1 (optimize info).2.usedTransFlag
        (optimize info).2.usedRegFlag sinFn = (y / h, 0, x / w) ∧
    channelize (qbist (optimize info).1 x y w h 1
        (optimize info).2.usedTransFlag
        (optimize info).2.usedRegFlag sinFn) =
      (⌊y / h * 255⌋, 0, ⌊x / w * 255⌋, 255) := by
  have hctl0 : fld (normalizeControl info).control 0 = 0 := by
    rw [show (normalizeControl info).control =
      (List.range MAX_TRANSFORMS).foldl (fun acc j =>
        if fld info.transformSequence j = ROTATE ∨
            fld info.transformSequence j = ROTATE2 ∨
            fld info.transformSequence j = COMPLEMENT
        then acc.set j (fld info.dest j) else acc) info.control from rfl,
      normFold_get]
    rw [if_pos ⟨by decide, Or.inl h0k, by rw [hwf.2.2.1]; decide⟩]
    exact h0d
  have hflags : (optimize info).2 =
      setReg 0 (setReg 0 (setTrans 0 initFlags)) := by
    show checkLastModified (normalizeControl info).dest
      (normalizeControl info).source (normalizeControl info).control
      MAX_TRANSFORMS 0 initFlags = _
    rw [check_eq_some (normalizeControl info).dest
      (normalizeControl info).source (normalizeControl info).control
      MAX_TRANSFORMS 0 0 initFlags
      (lastWriter_scenario info.dest h0d hrest MAX_TRANSFORMS (by decide)
        (Nat.le_refl _))]
    rw [show fld (normalizeControl info).source 0 = 0 from h0s, hctl0]
    rw [check_eq_none (normalizeControl info).dest
      (normalizeControl info).source (normalizeControl info).control
      0 0 (setTrans 0 initFlags) rfl]
    rw [check_eq_none (normalizeControl info).dest
      (normalizeControl info).source (normalizeControl info).control
      0 0 (setReg 0 (setTrans 0 initFlags)) rfl]
  have hfT : ∀ j, (optimize info).2.usedTransFlag j = true ↔ j = 0 := by
    intro j
    rw [hflags]
    by_cases hj : j = 0
    · subst hj
      simp [setReg, setTrans, initFlags]
    · simp [setReg, setTrans, initFlags, Function.update_apply, hj]
  have hfR : ∀ r, (optimize info).2.usedRegFlag r = true ↔ r = 0 := by
    intro r
    rw [hflags]
    by_cases hr : r = 0
    · subst hr
      simp [setReg, setTrans, initFlags]
    · simp [setReg, setTrans, initFlags, Function.update_apply, hr]
  have hq : qbist (optimize info).1 x y w h 1
      (optimize info).2.usedTransFlag (optimize info).2.usedRegFlag sinFn =
      (y / h, 0, x / w) := by
    rw [qbist_os1]
    unfold evalOneGen
    rw [runUpTo_skip (optimize info).1 sinFn (optimize info).2.usedTransFlag
      _ 1 MAX_TRANSFORMS (by decide)
      (fun i h1 h2 => by
        cases hft : (optimize info).2.usedTransFlag i
        · rfl
        · exact absurd ((hfT i).mp hft) (by omega))]
    rw [runUpTo_succ]
    rw [execLive_run (optimize info).1 sinFn (optimize info).2.usedTransFlag
      _ 0 ((hfT 0).mpr rfl)
      (by
        rw [show fld (optimize info).1.transformSequence 0 = ROTATE from h0k]
        exact stepOut_rotate sinFn _ _)]
    rw [show fld (optimize info).1.dest 0 = 0 from h0d]
    rw [Function.update_same]
    rw [show fld (optimize info).1.source 0 = 0 from h0s]
    simp [runUpTo, (hfR 0).mpr rfl]
  exact ⟨hfT, hfR, hq, by rw [hq]; simp [channelize]⟩

/-- C7 witness: the scenario at a concrete formula and pixel. -/
theorem rotate_scenario_witness :
    qbist (optimize ⟨3 :: List.replicate 35 0, List.replicate 36 0,
        List.replicate 36 0, 0 :: List.replicate 35 1⟩).1 1 2 4 8 1
      (optimize ⟨3 :: List.replicate 35 0, List.replicate 36 0,
        List.replicate 36 0, 0 :: List.replicate 35 1⟩).2.usedTransFlag
      (optimize ⟨3 :: List.replicate 35 0, List.replicate 36 0,
        List.replicate 36 0, 0 :: List.replicate 35 1⟩).2.usedRegFlag
      (fun _ => 0) = (2 / 8, 0, 1 / 4) :=
  (rotate_scenario ⟨3 :: List.replicate 35 0, List.replicate 36 0,
      List.replicate 36 0, 0 :: List.replicate 35 1⟩
    (by unfold FormulaInfo.Wf; decide) (by decide) (by decide) (by decide)
    (fun i h1 h2 => by
      have h2b : i < 36 := h2
      interval_cases i <;> decide)
    (fun _ => 0) 1 2 4 8).2.2.1

/-- C8: Wrap boundary values.  A live SHIFT step with `src=(0.7,0.7,0.7)`
and `ctrl=(0.5,0.5,0.5)` writes `(0.2,0.2,0.2)` to `dest` (each sum 1.2
wraps), a live SHIFTBACK step with `src=(0.2,0.2,0.2)` and
`ctrl=(0.5,0.5,0.5)` writes `(0.7,0.7,0.7)` (each difference −0.3 wraps),
and the comparisons are non-strict: a SHIFT component sum of exactly 1.0
wraps to 0.0 and a SHIFTBACK difference of exactly 0.0 wraps to 1.0. -/
theorem wrap_boundary (info : FormulaInfo) (sinFn : ℚ → ℚ) (fT : ℕ → Bool)
    (r : ℕ → V) (i : ℕ) (hf : fT i = true) :
    (fld info.transformSequence i = SHIFT →
      r (fld info.source i) = (0.7, 0.7, 0.7) →
      r (fld info.control i) = (0.5, 0.5, 0.5) →
      execLive info sinFn fT r i =
        Function.update r (fld info.dest i) (0.2, 0.2, 0.2)) ∧
    (fld info.transformSequence i = SHIFTBACK →
      r (fld info.source i) = (0.2, 0.2, 0.2) →
      r (fld info.control i) = (0.5, 0.5, 0.5) →
      execLive info sinFn fT r i =
        Function.update r (fld info.dest i) (0.7, 0.7, 0.7)) ∧
    (stepOut sinFn SHIFT (0.5, 0.5, 0.5) (0.5, 0.5, 0.5) =
      some (0, 0, 0)) ∧
    (stepOut sinFn SHIFTBACK (0.5, 0.5, 0.5) (0.5, 0.5, 0.5) =
      some (1, 1, 1)) ∧
    (∀ v : ℚ, wrapDown v = if v ≥ 1 then v - 1 else v) ∧
    (∀ v : ℚ, wrapUp v = if v ≤ 0 then v + 1 else v) := by
  refine ⟨?_, ?_, ?_, ?_, fun v => rfl, fun v => rfl⟩
  · intro hk hs hc
    refine execLive_run info sinFn fT r i hf ?_
    rw [hk, hs, hc]
    show stepOut sinFn SHIFT (0.7, 0.7, 0.7) (0.5, 0.5, 0.5) =
      some (0.2, 0.2, 0.2)
    simp only [stepOut, SHIFT, PROJECTION]
    norm_num [wrapDown]
  · intro hk hs hc
    refine execLive_run info sinFn fT r i hf ?_
    rw [hk, hs, hc]
    show stepOut sinFn SHIFTBACK (0.2, 0.2, 0.2) (0.5, 0.5, 0.5) =
      some (0.7, 0.7, 0.7)
    simp only [stepOut, SHIFTBACK, SHIFT, PROJECTION]
    norm_num [wrapUp]
  · simp only [stepOut, SHIFT, PROJECTION]
    norm_num [wrapDown]
  · simp only [stepOut, SHIFTBACK, SHIFT, PROJECTION]
    norm_num [wrapUp]

/-- C8 witness: the boundary facts instantiated at a concrete live step. -/
theorem wrap_boundary_witness :
    stepOut (fun _ => 0) SHIFT (0.5, 0.5, 0.5) (0.5, 0.5, 0.5) =
      some (0, 0, 0) :=
  (wrap_boundary ⟨[1], [0], [0], [0]⟩ (fun _ => 0) (fun _ => true)
    (fun _ => (0.5, 0.5, 0.5)) 0 rfl).2.2.1

/-- C9: Zero-oversampling edge case.  With `oversampling = 0` the two
subsample loops of `qbist` run zero times, leaving the accumulator at
`(0,0,0)` and a sample count of `0*0 = 0`, so the returned colour is the
division of a zero accumulator by zero samples (`0/0`, which JavaScript
floating point renders as NaN in every channel); a well-defined colour
needs `oversampling ≥ 1`, yet `drawQbist`'s `oversampling` parameter
defaults to 0. -/
theorem zero_oversampling (info : FormulaInfo) (sinFn : ℚ → ℚ)
    (fT fR : ℕ → Bool) (sg : ℕ → ℚ → ℚ → V) (x y w h : ℚ) :
    qbistAccumGen info sinFn fT sg x y w h 0 = (0, 0, 0) ∧
    qbist info x y w h 0 fT fR sinFn =
      ((0 : ℚ) / ((0 * 0 : ℕ) : ℚ), (0 : ℚ) / ((0 * 0 : ℕ) : ℚ),
       (0 : ℚ) / ((0 * 0 : ℕ) : ℚ)) ∧
    (∀ (info2 : FormulaInfo) (x2 y2 w2 h2 : ℚ),
      drawQbistPixel sinFn info2 x2 y2 w2 h2 =
        drawQbistPixel sinFn info2 x2 y2 w2 h2 0) :=
  ⟨rfl, rfl, fun _ _ _ _ _ => rfl⟩

/-- C10: Liveness walk termination.  The backward scan only returns
positions strictly below its argument, so each recursive call of
`checkLastModified` strictly decreases `p`; the walk is a total function
satisfying its defining recursion (both equations hold for every input,
including the root call `checkLastModified(36, 0)`). -/
theorem walk_termination :
    (∀ (d : List ℕ) (p n q : ℕ), lastWriter d p n = some q → q < p) ∧
    (∀ (d s c : List ℕ) (p n : ℕ) (st : Flags),
      (lastWriter d p n = none →
        checkLastModified d s c p n st = setReg n st) ∧
      (∀ q, lastWriter d p n = some q →
        checkLastModified d s c p n st =
          checkLastModified d s c q (fld c q)
            (checkLastModified d s c q (fld s q) (setTrans q st)))) :=
  ⟨fun d p n q hq => lastWriter_lt hq,
   fun d s c p n st =>
     ⟨check_eq_none d s c p n st,
      fun q hq => check_eq_some d s c p n q st hq⟩⟩

/-- C10 witness: the decreasing measure and both recursion equations at
concrete inputs. -/
theorem walk_termination_witness :
    (0 : ℕ) < 1 ∧
    checkLastModified [] [] [] 0 5 initFlags = setReg 5 initFlags :=
  ⟨walk_termination.1 [0] 1 0 0 rfl,
   (walk_termination.2 [] [] [] 0 5 initFlags).1 rfl⟩
